import Mathlib

/-!
# The reveal.js math plugin (`plugin/math/plugin.js`)

A shallow embedding of the plugin: the fragment clean-up run by the
`slidechanged` handler, the option merge of `init`, the one-shot wrapper of
`loadScript`, and the three TeX macro handlers registered on "TeX Jax Ready".

Code outside the file (the browser DOM, MathJax) is represented by its
interface: the DOM by the data the handler reads and writes, MathJax by
parameters.
-/

namespace MathPlugin

/-! ## DOM elements and the fragment clean-up (lines 138-144) -/

/-- A DOM element as the handler sees it: its `nodeName` and the token set of
its `class` attribute (`classList`), in attribute order. -/
structure Element where
  nodeName : String
  classList : List String
  deriving DecidableEq, Repr

/-- The descendants of a slide in document order, which is the order in which
`slide.querySelectorAll` enumerates them. A node is identified by its position
in this enumeration. The tree shape is not represented: the handler reaches
the slide only through `querySelectorAll`, and `classList.remove` changes no
parent/child link. -/
abbrev Slide := List Element

/-- The call `el.classList.remove(tok)`: the token is taken out of the set. -/
def classListRemove (tok : String) (e : Element) : Element :=
  { e with classList := e.classList.filter (fun c => c != tok) }

/-- Whether the element matches the class selector `.cls`. -/
def matchesClass (cls : String) (e : Element) : Bool :=
  e.classList.contains cls

/-- The call `slide.querySelectorAll('.' + cls)` followed by
`Array.prototype.slice.call`: a snapshot array of the matching descendants
(as node positions), in document order. -/
def querySelectorAll (cls : String) (slide : Slide) : List Nat :=
  (List.range slide.length).filter
    (fun i => match slide[i]? with
      | some e => matchesClass cls e
      | none => false)

/-- Line 141: `slideFragments.filter(d => d.nodeName !== "SPAN")`, the node
names being read from the DOM as it is before the loop. -/
def filterNotSpan (slide : Slide) (nodes : List Nat) : List Nat :=
  nodes.filter
    (fun i => match slide[i]? with
      | some e => e.nodeName != "SPAN"
      | none => false)

/-- Apply `f` to the node at position `i`, leaving every other node alone. -/
def updateNode (f : Element → Element) (i : Nat) : Slide → Slide
  | [] => []
  | e :: es =>
    match i with
    | 0 => f e :: es
    | j + 1 => e :: updateNode f j es

/-- Lines 142-144: the `for` loop, one `classList.remove("fragment")` per
entry of `slideFragments`, in array order. -/
def removeLoop (slideFragments : List Nat) (dom : Slide) : Slide :=
  slideFragments.foldl (fun d i => updateNode (classListRemove "fragment") i d) dom

/-- The nodes the loop runs over: lines 140-141. -/
def slideFragments (slide : Slide) : List Nat :=
  filterNotSpan slide (querySelectorAll "fragment-mjx" slide)

/-- Lines 138-144, the clean-up part of the `slidechanged` handler, as a
function from the slide before to the slide after. -/
def reconcile (slide : Slide) : Slide :=
  removeLoop (slideFragments slide) slide

/-- The effect of the clean-up on one element, used to reason about the loop
(`reconcile_eq_map` proves the loop equal to the map of this function): a
marker-class element whose `nodeName` is not `"SPAN"` loses `fragment`. -/
def reconcileElement (e : Element) : Element :=
  if matchesClass "fragment-mjx" e && e.nodeName != "SPAN" then
    classListRemove "fragment" e
  else e

/-- The number N of marker-class elements of a slide. -/
def markerCount (slide : Slide) : Nat :=
  (slide.filter (fun e => matchesClass "fragment-mjx" e)).length

/-- The number M of marker-class elements of a slide that are `SPAN`s. -/
def markerSpanCount (slide : Slide) : Nat :=
  (slide.filter (fun e => matchesClass "fragment-mjx" e && e.nodeName == "SPAN")).length

/-- A slide with one `SPAN` and one MathML `mi`, both carrying the marker
class and `fragment`. -/
def twoFragments : Slide :=
  [⟨"SPAN", ["fragment", "fragment-mjx"]⟩, ⟨"mi", ["fragment", "fragment-mjx"]⟩]


/-! ## JavaScript values and the option merge of `init` (lines 12-22, 60-69) -/

/-- The JavaScript values an options record is made of. -/
inductive JSVal where
  | undefined
  | null
  | bool (b : Bool)
  | num (n : Int)
  | str (s : String)
  | arr (xs : List JSVal)
  | obj (props : List (String × JSVal))

/-- The properties of an object, in creation order. -/
abbrev Props := List (String × JSVal)

/-- JavaScript truthiness, as tested by `||`. -/
def JSVal.truthy : JSVal → Bool
  | .undefined => false
  | .null => false
  | .bool b => b
  | .num n => n != 0
  | .str s => s != ""
  | .arr _ => true
  | .obj _ => true

/-- The comparison `v === s` against a string literal. -/
def JSVal.strictEqStr (v : JSVal) (s : String) : Bool :=
  match v with
  | .str t => t == s
  | _ => false

/-- The own enumerable properties a spread copies from a value: those of an
object, the indexed elements of an array, the indexed characters of a string,
and none for `undefined`, `null`, booleans and numbers. -/
def ownProps : JSVal → Props
  | .obj ps => ps
  | .arr xs => xs.enum.map (fun p => (toString p.1, p.2))
  | .str s => s.data.enum.map (fun p => (toString p.1, JSVal.str (String.singleton p.2)))
  | _ => []

/-- The own property keys of a property list, each once, in creation order. -/
def ownKeys : Props → List String
  | [] => []
  | (k, _) :: ps => k :: (ownKeys ps).filter (fun k2 => k2 != k)

/-- The read `o[k]` of an own property: `undefined` when there is none. -/
def getProp (ps : Props) (k : String) : JSVal :=
  (ps.lookup k).getD JSVal.undefined

/-- The member read `v.k`, for the keys this plugin reads (`mathjax`,
`config`, `tex2jax`, `readyState`); inherited properties are not modelled. -/
def getMember (v : JSVal) (k : String) : JSVal :=
  getProp (ownProps v) k

/-- The write `o[k] = v`: an existing property keeps its place and takes the
new value, a new one is added at the end. -/
def setProp (ps : Props) (k : String) (v : JSVal) : Props :=
  if (ps.lookup k).isSome then
    ps.map (fun p => if p.1 == k then (p.1, v) else p)
  else ps ++ [(k, v)]

/-- One spread element `...src` inside an object literal: every own property
of `src` is read and written onto the object under construction. -/
def copyDataProperties (target : Props) (src : JSVal) : Props :=
  (ownKeys (ownProps src)).foldl (fun t k => setProp t k (getProp (ownProps src) k)) target

/-- The object literal with two spreads `{...a, ...b}`. -/
def spread2 (a b : JSVal) : Props :=
  copyDataProperties (copyDataProperties [] a) b

/-- Lines 12-22. -/
def defaultOptions : JSVal :=
  .obj [
    ("messageStyle", .str "none"),
    ("tex2jax", .obj [
      ("inlineMath", .arr [.arr [.str "$", .str "$"], .arr [.str "\\(", .str "\\)"]]),
      ("skipTags", .arr [.str "script", .str "noscript", .str "style", .str "textarea", .str "pre"])]),
    ("skipStartupTypeset", .bool true)]

/-- Line 60: `deck.getConfig().math || {}`. The argument is the value of the
`math` entry of the deck configuration, `undefined` when absent. -/
def revealOptionsOf (math : JSVal) : JSVal :=
  if math.truthy then math else .obj []

/-- Line 63: `options.mathjax ||` the CDN address. -/
def mathjaxOf (options : Props) : JSVal :=
  if (getProp options "mathjax").truthy then getProp options "mathjax"
  else .str "https://cdnjs.cloudflare.com/ajax/libs/mathjax/2.7.0/MathJax.js"

/-- Line 64: `options.config ||` the default profile. -/
def configOf (options : Props) : JSVal :=
  if (getProp options "config").truthy then getProp options "config"
  else .str "TeX-AMS_HTML-full"

/-- Line 65, `mathjax + '?config=' + config`, for string operands; the
conversion of other values to strings is not modelled. -/
def urlOf (mathjax config : JSVal) : Option String :=
  match mathjax, config with
  | .str m, .str c => some (m ++ "?config=" ++ c)
  | _, _ => none

/-- What `init` has built when it calls `loadScript`: the script address and
the record later handed to `MathJax.Hub.Config`. -/
structure InitResult where
  url : Option String
  options : Props

/-- Lines 60-69 of `init`. -/
def init (math : JSVal) : InitResult :=
  let revealOptions := revealOptionsOf math
  let options := spread2 defaultOptions revealOptions
  let mathjax := mathjaxOf options
  let config := configOf options
  let url := urlOf mathjax config
  let options := setProp options "tex2jax"
    (.obj (spread2 (getMember defaultOptions "tex2jax") (getMember revealOptions "tex2jax")))
  let options := setProp (setProp options "config" .null) "mathjax" .null
  { url := url, options := options }

/-- The record passed to `MathJax.Hub.Config` (line 73). -/
def hubConfigArg (math : JSVal) : Props := (init math).options

/-- A caller record that sets only the engine address. -/
def callerWithEndpoint : JSVal :=
  .obj [("mathjax", .str "https://example.org/MathJax.js")]

/-- A caller record that overrides the inline delimiters and the message
style and sets the config profile. -/
def callerWithDelimiters : Props :=
  [("messageStyle", .str "normal"),
   ("config", .str "TeX-AMS_SVG"),
   ("tex2jax", .obj [("inlineMath", .arr [.arr [.str "$$", .str "$$"]])])]

/-! ## `loadScript` and its one-shot wrapper `finish` (lines 24-51) -/

/-- The value held by the variable `callback`: a function, whose call either
returns or throws, or a value that is no function (`null` after line 35). -/
inductive CallbackVal where
  | fn (throws : Bool)
  | notFn
  deriving DecidableEq, Repr

/-- The variable `callback` captured by the closures, and the number of times
the callback has been called so far. -/
structure LoaderState where
  callback : CallbackVal
  calls : Nat
  deriving DecidableEq, Repr

/-- A signal delivered to the script element: its `load` event, or a
`readystatechange` event with the script's `readyState` at that moment. -/
inductive Signal where
  | load
  | readystatechange (readyState : String)
  deriving DecidableEq, Repr

/-- Lines 32-37. The result is the state the closure leaves and the exception
it ends with, if any: when `callback.call()` throws, line 35 is not reached
and `callback` keeps its value. -/
def finish (st : LoaderState) : LoaderState × Option String :=
  match st.callback with
  | .fn throws =>
    if throws then ({ st with calls := st.calls + 1 }, some "callback threw")
    else ({ callback := .notFn, calls := st.calls + 1 }, none)
  | .notFn => (st, none)

/-- The value of `this` in the body of `loadScript`. The file is an ES module
(line 154, `export default`), hence strict code, and line 71 calls
`loadScript(url, ...)` as a plain function: `this` is `undefined`. -/
def loadScriptThis : JSVal := .undefined

/-- Lines 42-46. The handler is an arrow function, so its `this` is the
`this` of `loadScript`, not the script element: the script's `readyState` is
never read. Reading a property of `undefined` or `null` throws. -/
def onreadystatechange (thisVal : JSVal) (st : LoaderState) : LoaderState × Option String :=
  match thisVal with
  | .undefined => (st, some "TypeError")
  | .null => (st, some "TypeError")
  | v => if (getMember v "readyState").strictEqStr "loaded" then finish st else (st, none)

/-- Line 39: `script.onload = finish`. -/
def onload (st : LoaderState) : LoaderState × Option String := finish st

/-- The browser dispatching one signal to the handler installed for it; an
exception thrown by a handler is reported and ends that handler only. -/
def deliver (thisVal : JSVal) (st : LoaderState) (sig : Signal) : LoaderState :=
  match sig with
  | .load => (onload st).1
  | .readystatechange _ => (onreadystatechange thisVal st).1

/-- The state right after `loadScript(url, callback)` has returned: both
handlers installed, the callback not yet called. -/
def loadScript (callback : CallbackVal) : LoaderState :=
  { callback := callback, calls := 0 }

/-- The signals of a sequence delivered in order after `loadScript`. -/
def runSignals (thisVal : JSVal) (callback : CallbackVal) (sigs : List Signal) : LoaderState :=
  sigs.foldl (deliver thisVal) (loadScript callback)

/-- How many times the callback has been invoked after the signals. -/
def invocations (thisVal : JSVal) (callback : CallbackVal) (sigs : List Signal) : Nat :=
  (runSignals thisVal callback sigs).calls

/-! ## The TeX macros registered on "TeX Jax Ready" (lines 87-132) -/

/-- The object literal a handler passes to `arg.With(...)`: the value of
`'class'` and, when present, `attrNames` and `attr`. -/
structure Decoration where
  className : String
  attrNames : Option (List String)
  attr : Option (List (String × String))
  deriving DecidableEq, Repr

/-- The MathJax TeX parser as the handlers use it, with parser state `σ` (the
handler's `this`) and MathML nodes `μ`: `this.GetArgument(name)`,
`this.ParseArg(name)`, `node.With(def)` and `this.Push(node)`. Each of the
three parser calls may end in a TeX error. -/
structure TexParser (σ μ : Type) where
  GetArgument : String → σ → Except String (String × σ)
  ParseArg : String → σ → Except String (μ × σ)
  With : μ → Decoration → μ
  Push : μ → σ → Except String σ

/-- Cut a character list at every character satisfying `p`; the pieces
between two cuts, before the first and after the last are all kept, empty
ones included. -/
def splitWhen (p : Char → Bool) : List Char → List (List Char)
  | [] => [[]]
  | c :: cs =>
    if p c then [] :: splitWhen p cs
    else
      match splitWhen p cs with
      | [] => [[c]]
      | w :: ws => (c :: w) :: ws

/-- The call `input.split(" ")`: the pieces between single space characters. -/
def splitSpace (input : String) : List String :=
  (splitWhen (fun c => c == ' ') input.data).map String.mk

/-- Whether `if (index)` takes the first branch: `index` is `undefined` when
the array has no second entry, and an empty string is falsy. -/
def indexTruthy : Option String → Bool
  | none => false
  | some s => s != ""

/-- Lines 99-107. -/
def FRAGMENT_INDEX_attribute {σ μ : Type} (P : TexParser σ μ) (name : String) (s : σ) :
    Except String σ := do
  let (index, s1) ← P.GetArgument name s
  let (arg, s2) ← P.ParseArg name s1
  P.Push (P.With arg
    { className := "fragment fragment-mjx",
      attrNames := some ["data-fragment-index"],
      attr := some [("data-fragment-index", index)] }) s2

/-- Lines 108-123. The destructuring of line 110 takes entries 0 and 1 of the
array; `split` never returns an empty array, so entry 0 is a string. -/
def FRAGMENT_apply {σ μ : Type} (P : TexParser σ μ) (name : String) (s : σ) :
    Except String σ := do
  let (input, s1) ← P.GetArgument name s
  let parts := splitSpace input
  let apply_kind := parts.headD "undefined"
  let index := parts[1]?
  let (arg, s2) ← P.ParseArg name s1
  if indexTruthy index then
    P.Push (P.With arg
      { className := "fragapply fragment fragment-mjx " ++ apply_kind,
        attrNames := some ["data-fragment-index"],
        attr := some [("data-fragment-index", index.getD "")] }) s2
  else
    P.Push (P.With arg
      { className := "fragapply fragment fragment-mjx " ++ apply_kind,
        attrNames := none,
        attr := none }) s2

/-- Lines 124-130. -/
def TEX_APPLY_class {σ μ : Type} (P : TexParser σ μ) (name : String) (s : σ) :
    Except String σ := do
  let (class_kind, s1) ← P.GetArgument name s
  let (arg, s2) ← P.ParseArg name s1
  P.Push (P.With arg { className := class_kind, attrNames := none, attr := none }) s2

/-- Lines 90-96: the macro table given to `TEX.Definitions.Add`, macro name to
handler name. -/
def macros : List (String × String) :=
  [("fragment", "FRAGMENT_INDEX_attribute"),
   ("fragapply", "FRAGMENT_apply"),
   ("texclass", "TEX_APPLY_class")]

/-- Lines 98-131: the handlers `TEX.Parse.Augment` adds, by name. -/
def parseAugment {σ μ : Type} (P : TexParser σ μ) :
    List (String × (String → σ → Except String σ)) :=
  [("FRAGMENT_INDEX_attribute", FRAGMENT_INDEX_attribute P),
   ("FRAGMENT_apply", FRAGMENT_apply P),
   ("TEX_APPLY_class", TEX_APPLY_class P)]

/-- The names of the handlers of the `TEX.Parse.Augment` block. -/
def augmentNames : List String :=
  (parseAugment
    (⟨fun _ _ => .error "", fun _ _ => .error "", fun m _ => m, fun _ s => .ok s⟩ :
      TexParser Unit Unit)).map Prod.fst

/-- Lines 82-85: the macros the usage comment shows, in the order of its
three example lines. -/
def documentedMacros : List String := ["fragment", "fragapply", "fragindex"]

/-- The handler a control sequence `\name` runs: the macro table gives the
handler name, the augmented parser the handler. `none` when the name is not
in the table or the handler is not defined. -/
def macroHandler {σ μ : Type} (P : TexParser σ μ) (name : String) :
    Option (String → σ → Except String σ) :=
  match macros.lookup name with
  | none => none
  | some h => (parseAugment P).lookup h

/-- Whether a character is ASCII whitespace, the separator of the tokens of a
`class` attribute: tab, line feed, form feed, carriage return, space. -/
def isAsciiWhitespace (c : Char) : Bool :=
  c.toNat == 9 || c.toNat == 10 || c.toNat == 12 || c.toNat == 13 || c.toNat == 32

/-- The class names a `class` attribute value stands for: its maximal runs of
characters that are not ASCII whitespace. -/
def classTokens (className : String) : List String :=
  ((splitWhen isAsciiWhitespace className.data).filter (fun w => !w.isEmpty)).map String.mk

/-- A word: a non-empty text without ASCII whitespace. -/
def isWord (s : String) : Prop :=
  s ≠ "" ∧ ∀ c ∈ s.data, isAsciiWhitespace c = false

/-- A recording parser to run the handlers on concrete input: the state is
the list of brace groups still to read and the nodes pushed so far; a node is
the source text of a sub-expression with the decorations applied to it. -/
def recordingParser :
    TexParser (List String × List (String × List Decoration)) (String × List Decoration) where
  GetArgument := fun _ s =>
    match s.1 with
    | [] => .error "Missing argument"
    | a :: rest => .ok (a, (rest, s.2))
  ParseArg := fun _ s =>
    match s.1 with
    | [] => .error "Missing argument"
    | a :: rest => .ok ((a, []), (rest, s.2))
  With := fun node d => (node.1, node.2 ++ [d])
  Push := fun node s => .ok (s.1, s.2 ++ [node])

/-! ## The `slidechanged` handler and the MathJax queue (lines 134-145) -/

/-- What happens to the current slide, in order: a Typeset request for it is
handed to `MathJax.Hub.Queue`, the engine carries a Typeset request out, and
`classList.remove("fragment")` is called on a node. -/
inductive Effect where
  | typesetQueued
  | typesetCarriedOut
  | fragmentRemoved (node : Nat)
  deriving DecidableEq, Repr

/-- The current slide with the Typeset requests the engine still holds for it
and the effects so far, oldest first. -/
structure Page where
  dom : Slide
  pending : Nat
  log : List Effect
  deriving DecidableEq, Repr

/-- The call `MathJax.Hub.Queue(['Typeset', MathJax.Hub, event.currentSlide])`
of line 136 as a state change; MathJax is not part of the file, so the
handler takes it as a parameter. -/
abbrev HubQueue := Page → Page

/-- Lines 135-145: the handler first calls `MathJax.Hub.Queue`, then, in the
same invocation, runs the clean-up on the DOM as that call left it. -/
def onSlideChanged (hubQueue : HubQueue) (p : Page) : Page :=
  let p1 := hubQueue p
  { p1 with
    dom := reconcile p1.dom,
    log := p1.log ++ (slideFragments p1.dom).map Effect.fragmentRemoved }

/-- Modelled from the spec: the engine queue of MathJax, which is not in the
file. Section 5: "orchestrator requests are enqueued and executed
asynchronously relative to the caller, but in FIFO order relative to each
other". The call only records the request. -/
def hubQueueDeferred : HubQueue := fun p =>
  { p with pending := p.pending + 1, log := p.log ++ [Effect.typesetQueued] }

/-- Modelled from the spec: the engine carrying out, after the caller has
returned, the requests it holds, oldest first; `typeset` is the change a
typeset pass makes to the slide. -/
def drainQueue (typeset : Slide → Slide) (p : Page) : Page :=
  { dom := typeset^[p.pending] p.dom,
    pending := 0,
    log := p.log ++ List.replicate p.pending Effect.typesetCarriedOut }

/-- Whether, in a log, every removal of `fragment` comes after a carried-out
Typeset request: no `fragmentRemoved` before the first `typesetCarriedOut`. -/
def removalsAfterTypeset : List Effect → Bool
  | [] => true
  | Effect.typesetCarriedOut :: _ => true
  | Effect.fragmentRemoved _ :: _ => false
  | Effect.typesetQueued :: rest => removalsAfterTypeset rest

/-- A typeset pass that renders one formula: it adds to the slide a MathML
`mi` element carrying `fragment` and the marker class. -/
def typesetAddsFragment (slide : Slide) : Slide :=
  slide ++ [⟨"mi", ["fragment", "fragment-mjx"]⟩]

/-- A page whose slide holds one marker-class `mi` left by an earlier pass,
with nothing queued and an empty log. -/
def pageBefore : Page :=
  { dom := [⟨"mi", ["fragment", "fragment-mjx"]⟩], pending := 0, log := [] }

/-- A page whose slide holds a formula not yet typeset, so no marker-class
element, with nothing queued and an empty log. -/
def pageUntypeset : Page :=
  { dom := [⟨"P", []⟩], pending := 0, log := [] }
/-! ### Lemmas on the loop -/

theorem updateNode_length (f : Element → Element) (i : Nat) (dom : Slide) :
    (updateNode f i dom).length = dom.length := by
  induction dom generalizing i with
  | nil => simp [updateNode]
  | cons e es ih =>
    cases i with
    | zero => simp [updateNode]
    | succ j => simp [updateNode, ih]

theorem updateNode_getElem? (f : Element → Element) (i j : Nat) (dom : Slide) :
    (updateNode f i dom)[j]? = if i = j then (dom[j]?).map f else dom[j]? := by
  induction dom generalizing i j with
  | nil => simp [updateNode]
  | cons e es ih =>
    cases i with
    | zero =>
      cases j with
      | zero => simp [updateNode]
      | succ k => simp [updateNode]
    | succ i =>
      cases j with
      | zero => simp [updateNode]
      | succ k => simp [updateNode, ih]

theorem removeLoop_getElem? (idxs : List Nat) (dom : Slide) (j : Nat) :
    (removeLoop idxs dom)[j]? =
      (dom[j]?).map (fun e => (classListRemove "fragment")^[idxs.count j] e) := by
  induction idxs generalizing dom with
  | nil => simp [removeLoop]
  | cons i is ih =>
    have step : removeLoop (i :: is) dom
        = removeLoop is (updateNode (classListRemove "fragment") i dom) := rfl
    rw [step, ih, updateNode_getElem?]
    by_cases h : i = j
    · subst h
      cases hd : dom[i]? with
      | none => simp
      | some e => simp [List.count_cons_self, Function.iterate_succ]
    · have h2 : (i == j) = false := by simpa using h
      cases hd : dom[j]? <;> simp [h, List.count_cons, h2]

theorem slideFragments_nodup (slide : Slide) : (slideFragments slide).Nodup := by
  unfold slideFragments filterNotSpan querySelectorAll
  exact ((List.nodup_range _).filter _).filter _

theorem mem_slideFragments (slide : Slide) (j : Nat) :
    j ∈ slideFragments slide ↔
      ∃ e, slide[j]? = some e ∧ matchesClass "fragment-mjx" e = true ∧ e.nodeName ≠ "SPAN" := by
  unfold slideFragments filterNotSpan querySelectorAll
  simp only [List.mem_filter, List.mem_range]
  constructor
  · rintro ⟨⟨hlt, hm⟩, hn⟩
    cases hd : slide[j]? with
    | none => simp [hd] at hm
    | some e =>
      refine ⟨e, rfl, ?_, ?_⟩
      · simpa [hd] using hm
      · simpa [hd] using hn
  · rintro ⟨e, he, hm, hn⟩
    have hlt : j < slide.length := by
      by_contra hge
      have : slide[j]? = none := List.getElem?_eq_none (Nat.le_of_not_lt hge)
      simp [this] at he
    refine ⟨⟨hlt, ?_⟩, ?_⟩
    · simp [he, hm]
    · simpa [he] using hn

/-- The loop computes the element-wise map `reconcileElement`. -/
theorem reconcile_eq_map (slide : Slide) : reconcile slide = slide.map reconcileElement := by
  apply List.ext_getElem?
  intro j
  unfold reconcile
  rw [removeLoop_getElem?, List.getElem?_map]
  cases hd : slide[j]? with
  | none => rfl
  | some e =>
    simp only [Option.map_some']
    congr 1
    by_cases hm : matchesClass "fragment-mjx" e = true ∧ e.nodeName ≠ "SPAN"
    · have hin : j ∈ slideFragments slide := (mem_slideFragments slide j).2 ⟨e, hd, hm.1, hm.2⟩
      rw [List.count_eq_one_of_mem (slideFragments_nodup slide) hin]
      simp [reconcileElement, hm.1, hm.2]
    · have hnin : j ∉ slideFragments slide := by
        intro hin
        obtain ⟨e2, he2, h1, h2⟩ := (mem_slideFragments slide j).1 hin
        rw [hd] at he2
        cases he2
        exact hm ⟨h1, h2⟩
      rw [List.count_eq_zero_of_not_mem hnin]
      have : (matchesClass "fragment-mjx" e && e.nodeName != "SPAN") = false := by
        by_cases h1 : matchesClass "fragment-mjx" e = true
        · have h2 : e.nodeName = "SPAN" := by
            by_contra h2
            exact hm ⟨h1, h2⟩
          simp [h2]
        · simp [h1]
      simp [reconcileElement, this]


/-! ### Lemmas on property lists and spreads -/

theorem lookup_cons_ne (ps : Props) (a k : String) (b : JSVal) (h : k ≠ a) :
    List.lookup k ((a, b) :: ps) = ps.lookup k := by
  have hne : (k == a) = false := by simpa using h
  simp [List.lookup_cons, hne]

theorem lookup_cons_self (ps : Props) (a : String) (b : JSVal) :
    List.lookup a ((a, b) :: ps) = some b := by
  simp [List.lookup_cons]

theorem map_replace_absent (ps : Props) (k : String) (v : JSVal)
    (h : ps.lookup k = none) :
    ps.map (fun p => if p.1 == k then (p.1, v) else p) = ps := by
  induction ps with
  | nil => rfl
  | cons q qs ih =>
    obtain ⟨c, d⟩ := q
    by_cases hkc : k = c
    · subst hkc
      rw [lookup_cons_self] at h
      cases h
    · rw [lookup_cons_ne _ _ _ _ hkc] at h
      have hck : (c == k) = false := by simpa using Ne.symm hkc
      rw [List.map_cons, ih h]
      simp [hck]

theorem lookup_map_replace (ps : Props) (k k2 : String) (v : JSVal)
    (h : (ps.lookup k).isSome = true) :
    (ps.map (fun p => if p.1 == k then (p.1, v) else p)).lookup k2 =
      if k2 = k then some v else ps.lookup k2 := by
  induction ps with
  | nil => simp at h
  | cons p ps ih =>
    obtain ⟨a, b⟩ := p
    by_cases hak : a = k
    · subst hak
      have hhead : (if ((a, b) : String × JSVal).1 == a then (((a, b) : String × JSVal).1, v)
          else (a, b)) = (a, v) := by
        simp
      rw [List.map_cons]
      simp only []
      rw [hhead]
      by_cases hk2 : k2 = a
      · subst hk2
        rw [lookup_cons_self, if_pos rfl]
      · rw [lookup_cons_ne _ _ _ _ hk2, lookup_cons_ne _ _ _ _ hk2, if_neg hk2]
        cases hl : ps.lookup a with
        | none => rw [map_replace_absent ps a v hl]
        | some x =>
          have hs : (ps.lookup a).isSome = true := by simp [hl]
          rw [ih hs, if_neg hk2]
    · have hak2 : (a == k) = false := by simpa using hak
      rw [lookup_cons_ne _ _ _ _ (Ne.symm hak)] at h
      have hhead : (if ((a, b) : String × JSVal).1 == k then (((a, b) : String × JSVal).1, v)
          else (a, b)) = (a, b) := by
        simp [hak2]
      rw [List.map_cons]
      simp only []
      rw [hhead]
      by_cases hk2 : k2 = a
      · subst hk2
        rw [lookup_cons_self, lookup_cons_self, if_neg hak]
      · rw [lookup_cons_ne _ _ _ _ hk2, lookup_cons_ne _ _ _ _ hk2]
        exact ih h

theorem lookup_append_single (ps : Props) (k k2 : String) (v : JSVal)
    (h : ps.lookup k = none) :
    (ps ++ [(k, v)]).lookup k2 = if k2 = k then some v else ps.lookup k2 := by
  induction ps with
  | nil =>
    by_cases hk : k2 = k
    · subst hk
      simp [List.lookup_cons]
    · have hne : (k2 == k) = false := by simpa using hk
      simp [List.lookup_cons, hne, hk]
  | cons p ps ih =>
    obtain ⟨a, b⟩ := p
    by_cases hka : k = a
    · subst hka
      simp [List.lookup_cons] at h
    · have hka2 : (k == a) = false := by simpa using hka
      rw [List.lookup_cons, hka2] at h
      by_cases hk2 : k2 = a
      · subst hk2
        have : ¬ k2 = k := fun e => hka e.symm
        simp [List.lookup_cons, this]
      · have hne : (k2 == a) = false := by simpa using hk2
        simp only [List.cons_append, List.lookup_cons, hne]
        exact ih h

theorem lookup_setProp (ps : Props) (k k2 : String) (v : JSVal) :
    (setProp ps k v).lookup k2 = if k2 = k then some v else ps.lookup k2 := by
  unfold setProp
  by_cases h : (ps.lookup k).isSome = true
  · rw [if_pos h]
    exact lookup_map_replace ps k k2 v h
  · rw [if_neg h]
    apply lookup_append_single
    cases hl : ps.lookup k with
    | none => rfl
    | some x => simp [hl] at h

theorem mem_ownKeys (ps : Props) (k : String) :
    k ∈ ownKeys ps ↔ (ps.lookup k).isSome = true := by
  induction ps with
  | nil => simp [ownKeys]
  | cons p ps ih =>
    obtain ⟨a, b⟩ := p
    by_cases hka : k = a
    · subst hka
      simp [ownKeys, List.lookup_cons]
    · have hne : (k == a) = false := by simpa using hka
      simp [ownKeys, List.lookup_cons, hne, hka, List.mem_filter, ih]

theorem lookup_foldl_setProp (g : String → JSVal) (ks : List String) (t : Props) (k : String) :
    (ks.foldl (fun t k2 => setProp t k2 (g k2)) t).lookup k =
      if k ∈ ks then some (g k) else t.lookup k := by
  induction ks generalizing t with
  | nil => simp
  | cons a ks ih =>
    rw [List.foldl_cons, ih, lookup_setProp]
    by_cases h1 : k ∈ ks
    · simp [h1]
    · by_cases h2 : k = a
      · subst h2
        simp [h1]
      · simp [h1, h2]

/-- A spread overlays the own properties of its source on the target. -/
theorem lookup_copyDataProperties (t : Props) (src : JSVal) (k : String) :
    (copyDataProperties t src).lookup k =
      match (ownProps src).lookup k with
      | some v => some v
      | none => t.lookup k := by
  unfold copyDataProperties
  rw [lookup_foldl_setProp (fun k2 => getProp (ownProps src) k2)]
  cases hl : (ownProps src).lookup k with
  | none =>
    have : k ∉ ownKeys (ownProps src) := by
      rw [mem_ownKeys, hl]
      simp
    simp [this]
  | some v =>
    have : k ∈ ownKeys (ownProps src) := by
      rw [mem_ownKeys, hl]
      rfl
    simp [this, getProp, hl]

theorem lookup_spread2 (a b : JSVal) (k : String) :
    (spread2 a b).lookup k =
      match (ownProps b).lookup k with
      | some v => some v
      | none => (ownProps a).lookup k := by
  unfold spread2
  rw [lookup_copyDataProperties]
  cases (ownProps b).lookup k with
  | some v => rfl
  | none =>
    simp only
    rw [lookup_copyDataProperties]
    cases (ownProps a).lookup k <;> rfl

/-! ### Lemmas on splitting -/

theorem splitWhen_ne_nil (p : Char → Bool) (l : List Char) : splitWhen p l ≠ [] := by
  cases l with
  | nil => simp [splitWhen]
  | cons c cs =>
    unfold splitWhen
    by_cases h : p c = true
    · simp [h]
    · simp only [h, Bool.false_eq_true, if_false]
      cases splitWhen p cs <;> simp

theorem splitWhen_no_sep (p : Char → Bool) (w : List Char)
    (h : ∀ c ∈ w, p c = false) : splitWhen p w = [w] := by
  induction w with
  | nil => simp [splitWhen]
  | cons c cs ih =>
    have hc : p c = false := h c (List.mem_cons_self c cs)
    have hcs : ∀ d ∈ cs, p d = false := fun d hd => h d (List.mem_cons_of_mem c hd)
    unfold splitWhen
    simp [hc, ih hcs]

theorem splitWhen_append_sep (p : Char → Bool) (w : List Char) (sep : Char) (rest : List Char)
    (h : ∀ c ∈ w, p c = false) (hsep : p sep = true) :
    splitWhen p (w ++ sep :: rest) = w :: splitWhen p rest := by
  induction w with
  | nil =>
    rw [List.nil_append, splitWhen]
    simp [hsep]
  | cons c cs ih =>
    have hc : p c = false := h c (List.mem_cons_self c cs)
    have hcs : ∀ d ∈ cs, p d = false := fun d hd => h d (List.mem_cons_of_mem c hd)
    rw [List.cons_append, splitWhen]
    simp [hc, ih hcs]

theorem isWord_data_ne_nil (s : String) (h : isWord s) : s.data ≠ [] := by
  intro hd
  apply h.1
  cases s with
  | mk d =>
    simp only at hd
    subst hd
    rfl

theorem isWord_no_space (s : String) (h : isWord s) :
    ∀ c ∈ s.data, (c == ' ') = false := by
  intro c hc
  have hw := h.2 c hc
  by_contra hcon
  have hceq : c = ' ' := by simpa using hcon
  subst hceq
  exact absurd hw (by decide)

/-- A single word is not cut by `split(" ")`. -/
theorem splitSpace_word (style : String) (h : ∀ c ∈ style.data, (c == ' ') = false) :
    splitSpace style = [style] := by
  unfold splitSpace
  rw [splitWhen_no_sep _ _ h]
  rfl

/-- Two words joined by one space are cut into the two words. -/
theorem splitSpace_two_words (style idx : String)
    (h1 : ∀ c ∈ style.data, (c == ' ') = false)
    (h2 : ∀ c ∈ idx.data, (c == ' ') = false) :
    splitSpace (style ++ " " ++ idx) = [style, idx] := by
  unfold splitSpace
  have hd : (style ++ " " ++ idx).data = style.data ++ ' ' :: idx.data := by
    rw [String.data_append, String.data_append]
    simp
  rw [hd, splitWhen_append_sep _ _ _ _ h1 (by decide), splitWhen_no_sep _ _ h2]
  rfl

/-- The class names of the `class` value built by `FRAGMENT_apply` from a
style word. -/
theorem classTokens_fragapply (style : String) (h : isWord style) :
    classTokens ("fragapply fragment fragment-mjx " ++ style) =
      ["fragapply", "fragment", "fragment-mjx", style] := by
  unfold classTokens
  have hd : ("fragapply fragment fragment-mjx " ++ style).data =
      "fragapply".data ++ ' ' :: ("fragment".data ++ ' ' :: ("fragment-mjx".data ++
        ' ' :: style.data)) := by
    rw [String.data_append]
    rfl
  rw [hd, splitWhen_append_sep _ _ _ _ (by decide) (by decide),
    splitWhen_append_sep _ _ _ _ (by decide) (by decide),
    splitWhen_append_sep _ _ _ _ (by decide) (by decide),
    splitWhen_no_sep _ _ h.2]
  have hne : style.data.isEmpty = false := by
    have := isWord_data_ne_nil style h
    cases hs : style.data with
    | nil => exact absurd hs this
    | cons c cs => rfl
  simp only [List.filter_cons, List.filter_nil, hne]
  rfl

/-! ### Counting the nodes the loop visits -/

theorem indexFilter_length (p : Element → Bool) (l : Slide) :
    ((List.range l.length).filter
      (fun i => match l[i]? with
        | some e => p e
        | none => false)).length = (l.filter p).length := by
  induction l with
  | nil => simp
  | cons a l ih =>
    rw [List.length_cons, List.range_succ_eq_map, List.filter_cons, List.filter_map,
      List.filter_cons]
    have hfun : ((fun i => match (a :: l)[i]? with
        | some e => p e
        | none => false) ∘ Nat.succ) = (fun i => match l[i]? with
        | some e => p e
        | none => false) := by
      funext i
      simp
    rw [hfun]
    by_cases h : p a = true <;> simp [h, ih]

theorem slideFragments_length (slide : Slide) :
    (slideFragments slide).length =
      (slide.filter (fun e => matchesClass "fragment-mjx" e && e.nodeName != "SPAN")).length := by
  rw [← indexFilter_length]
  unfold slideFragments filterNotSpan querySelectorAll
  rw [List.filter_filter]
  congr 1
  apply List.filter_congr
  intro i _
  cases slide[i]? <;> simp [Bool.and_comm]

theorem marker_split (slide : Slide) :
    (slide.filter (fun e => matchesClass "fragment-mjx" e && e.nodeName != "SPAN")).length
      + markerSpanCount slide = markerCount slide := by
  unfold markerSpanCount markerCount
  induction slide with
  | nil => rfl
  | cons a l ih =>
    by_cases h1 : matchesClass "fragment-mjx" a = true <;>
      by_cases h2 : a.nodeName = "SPAN" <;>
      simp [List.filter_cons, h1, h2] <;> omega

theorem reconcileElement_idem (e : Element) :
    reconcileElement (reconcileElement e) = reconcileElement e := by
  unfold reconcileElement
  by_cases h : (matchesClass "fragment-mjx" e && e.nodeName != "SPAN") = true
  · have hm : matchesClass "fragment-mjx" (classListRemove "fragment" e)
        = matchesClass "fragment-mjx" e := by
      simp [matchesClass, classListRemove, List.mem_filter]
    simp only [h, if_true, hm]
    have hn : (classListRemove "fragment" e).nodeName = e.nodeName := rfl
    rw [hn, h]
    simp [classListRemove, List.filter_filter]
  · simp [h]

/-! ## The claims on the fragment clean-up -/

/-- C1, as the code has it: for every slide and every element of it carrying
the marker class `fragment-mjx`, after the clean-up the element keeps its node
name and the marker class, has lost `fragment` (and nothing else) when it is
NOT a `SPAN`, and is unchanged when it is a `SPAN`; every other element is
unchanged. `classList.remove` is called once on each marker-class element that
is not a `SPAN` and on no other node: with N marker elements of which M are
`SPAN`s, N - M calls. -/
theorem reconcile_strips_non_span (slide : Slide) :
    (∀ (i : Nat) (e : Element), slide[i]? = some e → matchesClass "fragment-mjx" e = true →
      ∃ e2, (reconcile slide)[i]? = some e2 ∧ e2.nodeName = e.nodeName ∧
        matchesClass "fragment-mjx" e2 = true ∧
        (e.nodeName ≠ "SPAN" →
          e2.classList = e.classList.filter (fun c => c != "fragment") ∧
          "fragment" ∉ e2.classList) ∧
        (e.nodeName = "SPAN" → e2 = e)) ∧
    (∀ (i : Nat) (e : Element), slide[i]? = some e → matchesClass "fragment-mjx" e = false →
      (reconcile slide)[i]? = some e) ∧
    (slideFragments slide).Nodup ∧
    (∀ i : Nat, i ∈ slideFragments slide ↔
      ∃ e, slide[i]? = some e ∧ matchesClass "fragment-mjx" e = true ∧ e.nodeName ≠ "SPAN") ∧
    markerSpanCount slide ≤ markerCount slide ∧
    (slideFragments slide).length = markerCount slide - markerSpanCount slide := by
  refine ⟨?_, ?_, slideFragments_nodup slide, mem_slideFragments slide, ?_, ?_⟩
  · intro i e hi hm
    refine ⟨reconcileElement e, ?_, ?_, ?_, ?_, ?_⟩
    · rw [reconcile_eq_map, List.getElem?_map, hi]
      rfl
    · unfold reconcileElement
      split <;> rfl
    · unfold reconcileElement
      split
      · simpa [matchesClass, classListRemove, List.mem_filter] using hm
      · exact hm
    · intro hn
      have hc : (matchesClass "fragment-mjx" e && e.nodeName != "SPAN") = true := by
        simp [hm, hn]
      simp [reconcileElement, hc, classListRemove, List.mem_filter]
    · intro hn
      simp [reconcileElement, hn]
  · intro i e hi hm
    rw [reconcile_eq_map, List.getElem?_map, hi]
    simp [reconcileElement, hm]
  · have := marker_split slide
    omega
  · have := marker_split slide
    rw [slideFragments_length]
    omega

/-- C1, run on a slide with a marker-class `SPAN` and a marker-class `mi`. -/
theorem reconcile_strips_non_span_witness :
    reconcile twoFragments =
      [⟨"SPAN", ["fragment", "fragment-mjx"]⟩, ⟨"mi", ["fragment-mjx"]⟩] ∧
    slideFragments twoFragments = [1] ∧
    (slideFragments twoFragments).length = markerCount twoFragments - markerSpanCount twoFragments :=
  ⟨by decide, by decide, (reconcile_strips_non_span twoFragments).2.2.2.2.2⟩

/-- C1 as stated fails: on a slide with a marker-class `SPAN` and a
marker-class `mi`, the `SPAN` still has `fragment` after the clean-up and the
`mi` has lost it, so "has lost `fragment` if and only if it is a `SPAN`" does
not hold of either element. -/
theorem reconcile_span_keeps_fragment :
    twoFragments[0]? = some ⟨"SPAN", ["fragment", "fragment-mjx"]⟩ ∧
    (reconcile twoFragments)[0]? = some ⟨"SPAN", ["fragment", "fragment-mjx"]⟩ ∧
    twoFragments[1]? = some ⟨"mi", ["fragment", "fragment-mjx"]⟩ ∧
    (reconcile twoFragments)[1]? = some ⟨"mi", ["fragment-mjx"]⟩ ∧
    ¬ (∀ (i : Nat) (e e2 : Element), twoFragments[i]? = some e → matchesClass "fragment-mjx" e = true →
        (reconcile twoFragments)[i]? = some e2 →
        ("fragment" ∉ e2.classList ↔ e.nodeName = "SPAN")) := by
  refine ⟨by decide, by decide, by decide, by decide, ?_⟩
  intro h
  have h0 := h 0 ⟨"SPAN", ["fragment", "fragment-mjx"]⟩ ⟨"SPAN", ["fragment", "fragment-mjx"]⟩
    (by decide) (by decide) (by decide)
  exact absurd (h0.2 rfl) (by decide)

/-- C8: the clean-up is idempotent: run on a slide it has already been run
on, it changes no element. -/
theorem reconcile_idempotent (slide : Slide) :
    reconcile (reconcile slide) = reconcile slide := by
  rw [reconcile_eq_map, reconcile_eq_map, List.map_map]
  apply List.map_congr_left
  intro e _
  exact reconcileElement_idem e

/-! ## The claim on the option merge -/

/-- C2, as the code has it: for every caller-supplied math options record
`ps` (the absent one is treated as the empty record), the record passed to
`MathJax.Hub.Config` holds, under every key other than `mathjax`, `config` and
`tex2jax`, the caller's value when the caller supplied the key and the
built-in default otherwise (`messageStyle` and `skipStartupTypeset` keep
`'none'` and `true` unless overridden); its `tex2jax` is an object holding,
under every key, the caller's `tex2jax` value when supplied and the default
one (`inlineMath`, `skipTags`) otherwise; and its `mathjax` and `config` are
`null` whatever the caller supplied. -/
theorem hubConfigArg_merge (ps : Props) :
    hubConfigArg .undefined = hubConfigArg (.obj []) ∧
    (∀ k : String, k ≠ "mathjax" → k ≠ "config" → k ≠ "tex2jax" →
      (hubConfigArg (.obj ps)).lookup k =
        match ps.lookup k with
        | some v => some v
        | none => (ownProps defaultOptions).lookup k) ∧
    (ps.lookup "messageStyle" = none →
      getProp (hubConfigArg (.obj ps)) "messageStyle" = .str "none") ∧
    (ps.lookup "skipStartupTypeset" = none →
      getProp (hubConfigArg (.obj ps)) "skipStartupTypeset" = .bool true) ∧
    (∃ t : Props, (hubConfigArg (.obj ps)).lookup "tex2jax" = some (.obj t) ∧
      (∀ k : String, t.lookup k =
        match (ownProps (getProp ps "tex2jax")).lookup k with
        | some v => some v
        | none => (ownProps (getMember defaultOptions "tex2jax")).lookup k) ∧
      ((ownProps (getProp ps "tex2jax")).lookup "inlineMath" = none →
        getProp t "inlineMath" =
          .arr [.arr [.str "$", .str "$"], .arr [.str "\\(", .str "\\)"]]) ∧
      ((ownProps (getProp ps "tex2jax")).lookup "skipTags" = none →
        getProp t "skipTags" =
          .arr [.str "script", .str "noscript", .str "style", .str "textarea", .str "pre"])) ∧
    getProp (hubConfigArg (.obj ps)) "mathjax" = .null ∧
    getProp (hubConfigArg (.obj ps)) "config" = .null := by
  have hgen : ∀ k : String, k ≠ "mathjax" → k ≠ "config" → k ≠ "tex2jax" →
      (hubConfigArg (.obj ps)).lookup k =
        match ps.lookup k with
        | some v => some v
        | none => (ownProps defaultOptions).lookup k := by
    intro k h1 h2 h3
    simp only [hubConfigArg, init, revealOptionsOf, JSVal.truthy, if_true]
    rw [lookup_setProp, if_neg h1, lookup_setProp, if_neg h2, lookup_setProp, if_neg h3,
      lookup_spread2]
    rfl
  have htex : ∀ k : String,
      (spread2 (getMember defaultOptions "tex2jax") (getMember (.obj ps) "tex2jax")).lookup k =
        match (ownProps (getProp ps "tex2jax")).lookup k with
        | some v => some v
        | none => (ownProps (getMember defaultOptions "tex2jax")).lookup k := by
    intro k
    rw [lookup_spread2]
    rfl
  refine ⟨rfl, hgen, ?_, ?_, ?_, ?_, ?_⟩
  · intro h
    unfold getProp
    rw [hgen "messageStyle" (by decide) (by decide) (by decide), h]
    rfl
  · intro h
    unfold getProp
    rw [hgen "skipStartupTypeset" (by decide) (by decide) (by decide), h]
    rfl
  · refine ⟨spread2 (getMember defaultOptions "tex2jax") (getMember (.obj ps) "tex2jax"),
      ?_, htex, ?_, ?_⟩
    · simp only [hubConfigArg, init, revealOptionsOf, JSVal.truthy, if_true]
      rw [lookup_setProp, if_neg (by decide), lookup_setProp, if_neg (by decide), lookup_setProp,
        if_pos rfl]
    · intro h
      unfold getProp
      rw [htex, h]
      rfl
    · intro h
      unfold getProp
      rw [htex, h]
      rfl
  · simp only [hubConfigArg, init, getProp]
    rw [lookup_setProp, if_pos rfl]
    rfl
  · simp only [hubConfigArg, init, getProp]
    rw [lookup_setProp, if_neg (by decide), lookup_setProp, if_pos rfl]
    rfl

/-- C2, run on a caller record that overrides `messageStyle`, `config` and
`tex2jax.inlineMath`: the overrides are adopted, `skipStartupTypeset` and
`tex2jax.skipTags` keep their defaults, `config` is `null`. -/
theorem hubConfigArg_merge_witness :
    getProp (hubConfigArg (.obj callerWithDelimiters)) "messageStyle" = .str "normal" ∧
    getProp (hubConfigArg (.obj callerWithDelimiters)) "skipStartupTypeset" = .bool true ∧
    getProp (hubConfigArg (.obj callerWithDelimiters)) "tex2jax" =
      .obj [("inlineMath", .arr [.arr [.str "$$", .str "$$"]]),
            ("skipTags",
              .arr [.str "script", .str "noscript", .str "style", .str "textarea", .str "pre"])] ∧
    getProp (hubConfigArg (.obj callerWithDelimiters)) "config" = .null :=
  ⟨rfl, (hubConfigArg_merge callerWithDelimiters).2.2.2.1 rfl, rfl,
    (hubConfigArg_merge callerWithDelimiters).2.2.2.2.2.2⟩

/-- C2 as stated fails: a caller who supplies the engine endpoint
`mathjax` does not find it in the record passed to `MathJax.Hub.Config`; the
record holds `null` there, and the endpoint only reaches the script
address. -/
theorem hubConfigArg_drops_endpoint :
    getMember callerWithEndpoint "mathjax" = .str "https://example.org/MathJax.js" ∧
    getProp (hubConfigArg callerWithEndpoint) "mathjax" = .null ∧
    getProp (hubConfigArg callerWithEndpoint) "mathjax"
      ≠ getMember callerWithEndpoint "mathjax" ∧
    (init callerWithEndpoint).url
      = some "https://example.org/MathJax.js?config=TeX-AMS_HTML-full" := by
  refine ⟨rfl, rfl, ?_, rfl⟩
  intro h
  have h1 : getProp (hubConfigArg callerWithEndpoint) "mathjax" = JSVal.null := rfl
  have h2 : getMember callerWithEndpoint "mathjax"
      = JSVal.str "https://example.org/MathJax.js" := rfl
  rw [h1, h2] at h
  cases h

/-! ## The claims on the macro handlers -/

/-- C5: for every index text and every sub-expression the parser can parse,
the `\fragment` handler pushes the parsed sub-expression decorated with the
`class` value `fragment fragment-mjx`, that is exactly the classes `fragment`
and `fragment-mjx`, and with the attribute `data-fragment-index` set to the
index text as read, whatever the text is. -/
theorem FRAGMENT_INDEX_attribute_decorates {σ μ : Type} (P : TexParser σ μ)
    (name index : String) (arg : μ) (s s1 s2 : σ)
    (hget : P.GetArgument name s = .ok (index, s1))
    (hparse : P.ParseArg name s1 = .ok (arg, s2)) :
    FRAGMENT_INDEX_attribute P name s =
      P.Push (P.With arg
        { className := "fragment fragment-mjx",
          attrNames := some ["data-fragment-index"],
          attr := some [("data-fragment-index", index)] }) s2 ∧
    classTokens "fragment fragment-mjx" = ["fragment", "fragment-mjx"] := by
  refine ⟨?_, by decide⟩
  unfold FRAGMENT_INDEX_attribute
  simp only [hget, hparse, bind, Except.bind]

/-- C5, run on `\fragment` with index `3` and sub-expression `x_1`, and with
the non-numeric index `soon`. -/
theorem FRAGMENT_INDEX_attribute_witness :
    FRAGMENT_INDEX_attribute recordingParser "\\fragment" (["3", "x_1"], []) =
      .ok ([], [("x_1",
        [{ className := "fragment fragment-mjx",
           attrNames := some ["data-fragment-index"],
           attr := some [("data-fragment-index", "3")] }])]) ∧
    FRAGMENT_INDEX_attribute recordingParser "\\fragment" (["soon", "x_1"], []) =
      .ok ([], [("x_1",
        [{ className := "fragment fragment-mjx",
           attrNames := some ["data-fragment-index"],
           attr := some [("data-fragment-index", "soon")] }])]) :=
  ⟨(FRAGMENT_INDEX_attribute_decorates recordingParser "\\fragment" "3" ("x_1", [])
      (["3", "x_1"], []) (["x_1"], []) ([], []) rfl rfl).1,
   (FRAGMENT_INDEX_attribute_decorates recordingParser "\\fragment" "soon" ("x_1", [])
      (["soon", "x_1"], []) (["x_1"], []) ([], []) rfl rfl).1⟩

/-- C3, as the code has it: for every first argument of `\fragapply` made of
a style word, then exactly one space character, then an index word,
`FRAGMENT_apply` pushes the parsed sub-expression decorated with the classes
`fragapply`, `fragment`, `fragment-mjx` and the style word, and with the
attribute `data-fragment-index` set to the index word. -/
theorem FRAGMENT_apply_indexed {σ μ : Type} (P : TexParser σ μ)
    (name style idx : String) (arg : μ) (s s1 s2 : σ)
    (hstyle : isWord style) (hidx : isWord idx)
    (hget : P.GetArgument name s = .ok (style ++ " " ++ idx, s1))
    (hparse : P.ParseArg name s1 = .ok (arg, s2)) :
    FRAGMENT_apply P name s =
      P.Push (P.With arg
        { className := "fragapply fragment fragment-mjx " ++ style,
          attrNames := some ["data-fragment-index"],
          attr := some [("data-fragment-index", idx)] }) s2 ∧
    classTokens ("fragapply fragment fragment-mjx " ++ style) =
      ["fragapply", "fragment", "fragment-mjx", style] := by
  refine ⟨?_, classTokens_fragapply style hstyle⟩
  unfold FRAGMENT_apply
  have hsplit := splitSpace_two_words style idx (isWord_no_space style hstyle)
    (isWord_no_space idx hidx)
  have htruthy : indexTruthy (some idx) = true := by
    simp [indexTruthy, hidx.1]
  simp only [hget, hparse, bind, Except.bind, hsplit, List.headD_cons]
  simp [htruthy]

/-- C3, run on the first argument `highlight-blue 2`. -/
theorem FRAGMENT_apply_indexed_witness :
    FRAGMENT_apply recordingParser "\\fragapply" (["highlight-blue 2", "x_1"], []) =
      .ok ([], [("x_1",
        [{ className := "fragapply fragment fragment-mjx highlight-blue",
           attrNames := some ["data-fragment-index"],
           attr := some [("data-fragment-index", "2")] }])]) ∧
    classTokens "fragapply fragment fragment-mjx highlight-blue" =
      ["fragapply", "fragment", "fragment-mjx", "highlight-blue"] :=
  FRAGMENT_apply_indexed recordingParser "\\fragapply" "highlight-blue" "2" ("x_1", [])
    (["highlight-blue 2", "x_1"], []) (["x_1"], []) ([], [])
    ⟨by decide, by decide⟩ ⟨by decide, by decide⟩ rfl rfl

/-- C3 as stated fails: with two spaces between the style word and the index
word the handler sets no index attribute, and with a tab between them the
whole argument goes into the `class` value, so that the index word becomes a
class name and no index attribute is set either. -/
theorem FRAGMENT_apply_other_whitespace :
    FRAGMENT_apply recordingParser "\\fragapply" (["highlight-blue  2", "x_1"], []) =
      .ok ([], [("x_1",
        [{ className := "fragapply fragment fragment-mjx highlight-blue",
           attrNames := none,
           attr := none }])]) ∧
    FRAGMENT_apply recordingParser "\\fragapply" (["highlight-blue\t2", "x_1"], []) =
      .ok ([], [("x_1",
        [{ className := "fragapply fragment fragment-mjx highlight-blue\t2",
           attrNames := none,
           attr := none }])]) ∧
    classTokens "fragapply fragment fragment-mjx highlight-blue\t2" =
      ["fragapply", "fragment", "fragment-mjx", "highlight-blue", "2"] := by
  refine ⟨rfl, rfl, by decide⟩

/-- C6: for every first argument of `\fragapply` that is a single style word,
`FRAGMENT_apply` pushes the parsed sub-expression decorated with the classes
`fragapply`, `fragment`, `fragment-mjx` and the style word, the class list of
the indexed case, and with neither `attrNames` nor `attr`: no index attribute
is set. -/
theorem FRAGMENT_apply_no_index {σ μ : Type} (P : TexParser σ μ)
    (name style : String) (arg : μ) (s s1 s2 : σ)
    (hstyle : isWord style)
    (hget : P.GetArgument name s = .ok (style, s1))
    (hparse : P.ParseArg name s1 = .ok (arg, s2)) :
    FRAGMENT_apply P name s =
      P.Push (P.With arg
        { className := "fragapply fragment fragment-mjx " ++ style,
          attrNames := none,
          attr := none }) s2 ∧
    classTokens ("fragapply fragment fragment-mjx " ++ style) =
      ["fragapply", "fragment", "fragment-mjx", style] := by
  refine ⟨?_, classTokens_fragapply style hstyle⟩
  unfold FRAGMENT_apply
  have hsplit := splitSpace_word style (isWord_no_space style hstyle)
  simp only [hget, hparse, bind, Except.bind, hsplit, List.headD_cons]
  simp [indexTruthy]

/-- C6, run on the first argument `highlight-blue`. -/
theorem FRAGMENT_apply_no_index_witness :
    FRAGMENT_apply recordingParser "\\fragapply" (["highlight-blue", "x_1"], []) =
      .ok ([], [("x_1",
        [{ className := "fragapply fragment fragment-mjx highlight-blue",
           attrNames := none,
           attr := none }])]) ∧
    classTokens "fragapply fragment fragment-mjx highlight-blue" =
      ["fragapply", "fragment", "fragment-mjx", "highlight-blue"] :=
  FRAGMENT_apply_no_index recordingParser "\\fragapply" "highlight-blue" ("x_1", [])
    (["highlight-blue", "x_1"], []) (["x_1"], []) ([], [])
    ⟨by decide, by decide⟩ rfl rfl

/-- C7: for every class-name token and every sub-expression the parser can
parse, the `\texclass` handler pushes the parsed sub-expression decorated
with the token as its `class` value and with nothing else, neither
`attrNames` nor `attr`; when the token is a word, the classes are exactly that
one, so neither `fragment` nor `fragment-mjx` unless the token is that very
name. -/
theorem TEX_APPLY_class_decorates {σ μ : Type} (P : TexParser σ μ)
    (name class_kind : String) (arg : μ) (s s1 s2 : σ)
    (hget : P.GetArgument name s = .ok (class_kind, s1))
    (hparse : P.ParseArg name s1 = .ok (arg, s2)) :
    TEX_APPLY_class P name s =
      P.Push (P.With arg { className := class_kind, attrNames := none, attr := none }) s2 ∧
    (isWord class_kind → classTokens class_kind = [class_kind]) := by
  constructor
  · unfold TEX_APPLY_class
    simp only [hget, hparse, bind, Except.bind]
  · intro hw
    unfold classTokens
    rw [splitWhen_no_sep _ _ hw.2]
    have hne := isWord_data_ne_nil class_kind hw
    cases hs : class_kind.data with
    | nil => exact absurd hs hne
    | cons c cs =>
      have : String.mk (c :: cs) = class_kind := by
        rw [← hs]
      simp [this]

/-- C7, run on `\texclass` with token `boxed` and sub-expression `y`. -/
theorem TEX_APPLY_class_witness :
    TEX_APPLY_class recordingParser "\\texclass" (["boxed", "y"], []) =
      .ok ([], [("y", [{ className := "boxed", attrNames := none, attr := none }])]) ∧
    classTokens "boxed" = ["boxed"] :=
  ⟨(TEX_APPLY_class_decorates recordingParser "\\texclass" "boxed" ("y", [])
      (["boxed", "y"], []) (["y"], []) ([], []) rfl rfl).1,
   (TEX_APPLY_class_decorates recordingParser "\\texclass" "boxed" ("y", [])
      (["boxed", "y"], []) (["y"], []) ([], []) rfl rfl).2 ⟨by decide, by decide⟩⟩

/-- C10, what the code has: the macro table holds `fragment`, `fragapply` and
`texclass`, each bound to a handler of the `TEX.Parse.Augment` block; of the
three macros the usage comment shows, `\fragindex` is not in the table, and
no handler is found for it. -/
theorem fragindex_not_registered :
    macros.map Prod.fst = ["fragment", "fragapply", "texclass"] ∧
    (∀ p ∈ macros, p.2 ∈ augmentNames) ∧
    documentedMacros.filter (fun m => (macros.lookup m).isNone) = ["fragindex"] ∧
    macros.lookup "fragindex" = none ∧
    (macroHandler recordingParser "fragindex").isNone = true ∧
    (macroHandler recordingParser "fragment").isSome = true ∧
    (macroHandler recordingParser "fragapply").isSome = true ∧
    (macroHandler recordingParser "texclass").isSome = true := by
  refine ⟨by decide, by decide, by decide, by decide, rfl, rfl, rfl, rfl⟩

/-! ## The claim on `loadScript` -/

theorem deliver_readystatechange (st : LoaderState) (r : String) :
    deliver loadScriptThis st (.readystatechange r) = st := rfl

theorem runFrom_notFn (sigs : List Signal) (st : LoaderState) (h : st.callback = .notFn) :
    sigs.foldl (deliver loadScriptThis) st = st := by
  induction sigs with
  | nil => rfl
  | cons sig sigs ih =>
    rw [List.foldl_cons]
    cases sig with
    | load =>
      have : deliver loadScriptThis st .load = st := by
        simp [deliver, onload, finish, h]
      rw [this, ih]
    | readystatechange r => rw [deliver_readystatechange, ih]

theorem runFrom_fn (sigs : List Signal) (st : LoaderState) (h : st.callback = .fn false) :
    (sigs.foldl (deliver loadScriptThis) st).calls =
      if Signal.load ∈ sigs then st.calls + 1 else st.calls := by
  induction sigs with
  | nil => simp
  | cons sig sigs ih =>
    rw [List.foldl_cons]
    cases sig with
    | load =>
      have hd : deliver loadScriptThis st .load = { callback := .notFn, calls := st.calls + 1 } := by
        simp [deliver, onload, finish, h]
      rw [hd, runFrom_notFn sigs _ rfl]
      simp
    | readystatechange r =>
      rw [deliver_readystatechange, ih]
      simp

/-- C4, what the code has: with a callback that returns, the callback has
been invoked once after the signals when a `load` event is among them and not
at all otherwise; so it is never invoked twice, but `readystatechange`
signals with `readyState` `'loaded'`, however many, never invoke it: the
handler reads `this.readyState` with the `this` of `loadScript`, which is
`undefined`, not the script. -/
theorem loadScript_invocations (sigs : List Signal) (n : Nat) :
    invocations loadScriptThis (.fn false) sigs = (if Signal.load ∈ sigs then 1 else 0) ∧
    invocations loadScriptThis (.fn false) (List.replicate n (.readystatechange "loaded")) = 0 ∧
    invocations loadScriptThis (.fn false) [.readystatechange "loaded"] = 0 ∧
    (onreadystatechange loadScriptThis (loadScript (.fn false))).2 = some "TypeError" ∧
    invocations loadScriptThis (.fn false) [.readystatechange "loaded", .load, .load] = 1 := by
  have hgen : ∀ l : List Signal,
      invocations loadScriptThis (.fn false) l = (if Signal.load ∈ l then 1 else 0) := by
    intro l
    unfold invocations runSignals
    rw [runFrom_fn l (loadScript (.fn false)) rfl]
    simp [loadScript]
  refine ⟨hgen sigs, ?_, by decide, rfl, by decide⟩
  rw [hgen]
  have : Signal.load ∉ List.replicate n (Signal.readystatechange "loaded") := by
    intro hmem
    have := List.eq_of_mem_replicate hmem
    cases this
  simp [this]

/-! ## The claim on the order of typeset and clean-up -/

/-- C9, the code at the failing input: with the asynchronous engine queue,
the handler removes `fragment` right after handing the Typeset request to
`MathJax.Hub.Queue` and before that request is carried out. On a slide with a
marker-class `mi` left by an earlier pass, the log is queued, removed,
carried out, and the `mi` added by this pass keeps `fragment`; on a slide not
yet typeset nothing is removed at all and the `mi` the pass creates keeps
`fragment`. In both cases the result is not the clean-up of the typeset
slide. -/
theorem onSlideChanged_cleans_before_typeset :
    (drainQueue typesetAddsFragment (onSlideChanged hubQueueDeferred pageBefore)).log
      = [Effect.typesetQueued, Effect.fragmentRemoved 0, Effect.typesetCarriedOut] ∧
    removalsAfterTypeset
      (drainQueue typesetAddsFragment (onSlideChanged hubQueueDeferred pageBefore)).log
      = false ∧
    (drainQueue typesetAddsFragment (onSlideChanged hubQueueDeferred pageBefore)).dom
      = [⟨"mi", ["fragment-mjx"]⟩, ⟨"mi", ["fragment", "fragment-mjx"]⟩] ∧
    (drainQueue typesetAddsFragment (onSlideChanged hubQueueDeferred pageBefore)).dom
      ≠ reconcile (typesetAddsFragment pageBefore.dom) ∧
    (drainQueue typesetAddsFragment (onSlideChanged hubQueueDeferred pageUntypeset)).log
      = [Effect.typesetQueued, Effect.typesetCarriedOut] ∧
    (drainQueue typesetAddsFragment (onSlideChanged hubQueueDeferred pageUntypeset)).dom
      = [⟨"P", []⟩, ⟨"mi", ["fragment", "fragment-mjx"]⟩] ∧
    reconcile (typesetAddsFragment pageUntypeset.dom)
      = [⟨"P", []⟩, ⟨"mi", ["fragment-mjx"]⟩] := by
  refine ⟨by decide, by decide, by decide, by decide, by decide, by decide, by decide⟩

end MathPlugin
